import Mathlib

/-!
Verification of `src/hole_report.py`: a batch tool that computes, for every
polygon or multipolygon feature of a GeoJSON document, the area enclosed by
its outer ring, the area removed by its hole rings, and the hole percentage.

Python floats are modelled as exact rational numbers (`ℚ`), so every
arithmetic operation of the source is carried out exactly; `ℚ` has no
infinities or NaNs.  Parsed JSON documents are modelled by a small typed
AST covering the shapes the source inspects, with `Option` encoding a
missing key (`dict.get` returning `None`).
-/

namespace HoleReport

/-- A vertex is a pair of coordinates `(x, y)`. -/
abbrev Vertex : Type := ℚ × ℚ

/-- A ring is an ordered sequence of vertices, semantically closed. -/
abbrev GeoRing : Type := List Vertex

/-- Vertex number `i` of a ring, as read by `coords[i]` in the source.  The
default value is never reached: the source only indexes in range. -/
def vertAt (coords : GeoRing) (i : ℕ) : Vertex :=
  coords.getD i (0, 0)

/-- The term `x1 * y2 - x2 * y1` of the loop body of `ring_area`
(src/hole_report.py line 15), with `(x1, y1) = coords[i]` and
`(x2, y2) = coords[j]`. -/
def crossAt (coords : GeoRing) (i j : ℕ) : ℚ :=
  (vertAt coords i).1 * (vertAt coords j).2 - (vertAt coords j).1 * (vertAt coords i).2

/-- The signed shoelace sum accumulated by the loop of `ring_area`
(src/hole_report.py lines 12-15): for every `i < len(coords)` the cross
term of `coords[i]` and `coords[(i + 1) % len(coords)]`. -/
def shoelaceSum (coords : GeoRing) : ℚ :=
  ∑ i ∈ Finset.range coords.length, crossAt coords i ((i + 1) % coords.length)

/-- Embedding of `ring_area` (src/hole_report.py lines 7-16): an empty ring
returns `0.0` before the loop is attempted; otherwise the absolute value of
the shoelace sum is divided by two. -/
def ring_area (coords : GeoRing) : ℚ :=
  if coords = [] then 0 else |shoelaceSum coords| / 2

/-- Embedding of `polygon_metrics` (src/hole_report.py lines 19-31): given
a list of rings (first exterior, rest holes) it returns polygon area, hole
area and hole percentage. -/
def polygon_metrics (rings : List GeoRing) : ℚ × ℚ × ℚ :=
  match rings with
  | [] => (0, 0, 0)
  | outer :: holes =>
    let outer_area := ring_area outer
    let hole_area := (holes.map ring_area).sum
    let polygon_area := outer_area - hole_area
    let hole_pct := if polygon_area ≤ 0 then 0 else hole_area / polygon_area * 100
    (polygon_area, hole_area, hole_pct)

/-- A parsed geometry object, after `json.load`.  `polygon` and
`multiPolygon` correspond to a `'type'` key equal to `"Polygon"` or
`"MultiPolygon"` together with the `'coordinates'` value; `unsupported t`
is a geometry whose `'type'` key is missing (`t = none`) or holds any
other tag such as `"Point"` or `"LineString"` (`t = some tag`). -/
inductive Geometry : Type
  | polygon (coords : List GeoRing)
  | multiPolygon (coords : List (List GeoRing))
  | unsupported (tag : Option String)
deriving DecidableEq

/-- A feature object.  `geometry = none` models a feature without a
`'geometry'` key: the source reads `feat.get('geometry', {})` as the empty
dict, whose `'type'` lookup then yields `None`. -/
structure Feature : Type where
  geometry : Option Geometry
deriving DecidableEq

/-- A parsed document (src/hole_report.py lines 39-42): a document whose
`'type'` is `'FeatureCollection'` carries its `'features'` list (default
`[]`); any other document is treated as a single feature. -/
inductive Document : Type
  | featureCollection (features : List Feature)
  | single (feat : Feature)
deriving DecidableEq

/-- The feature list the loop of `process_geojson` iterates over. -/
def docFeatures : Document → List Feature
  | .featureCollection fs => fs
  | .single f => [f]

/-- One row yielded by `process_geojson` (src/hole_report.py lines 52, 57). -/
structure ResultRow : Type where
  feature_index : ℕ
  polygon_area : ℚ
  hole_area : ℚ
  hole_percent : ℚ
deriving DecidableEq

/-- The row yielded for one polygon (ring list) at feature counter `i`. -/
def mkRow (i : ℕ) (rings : List GeoRing) : ResultRow :=
  { feature_index := i
    polygon_area := (polygon_metrics rings).1
    hole_area := (polygon_metrics rings).2.1
    hole_percent := (polygon_metrics rings).2.2 }

/-- The inner `for poly in coords` loop of the `MultiPolygon` branch
(src/hole_report.py lines 54-57): one row per constituent polygon,
incrementing the shared feature counter; returns the rows together with
the counter value after the loop. -/
def emitMulti (idx : ℕ) : List (List GeoRing) → List ResultRow × ℕ
  | [] => ([], idx)
  | poly :: rest =>
    let r := emitMulti (idx + 1) rest
    (mkRow (idx + 1) poly :: r.1, r.2)

/-- The feature loop of `process_geojson` (src/hole_report.py lines 44-60),
with `idx` the running per-file feature counter (`index` in the source,
starting at 0 and incremented before each emitted row).  A `Polygon` yields
one row, a `MultiPolygon` one row per constituent polygon, and any other
geometry — including a missing `'geometry'` key or a missing `'type'` key —
is skipped without touching the counter. -/
def processFeatures (idx : ℕ) : List Feature → List ResultRow
  | [] => []
  | f :: rest =>
    match f.geometry with
    | some (Geometry.polygon coords) =>
      mkRow (idx + 1) coords :: processFeatures (idx + 1) rest
    | some (Geometry.multiPolygon coords) =>
      (emitMulti idx coords).1 ++ processFeatures (emitMulti idx coords).2 rest
    | some (Geometry.unsupported _) => processFeatures idx rest
    | none => processFeatures idx rest

/-- Embedding of `process_geojson` (src/hole_report.py lines 34-60) on an
already-parsed document. -/
def process_geojson (doc : Document) : List ResultRow :=
  processFeatures 0 (docFeatures doc)

/-- The file filter of `main` (src/hole_report.py line 71):
`filename.lower().endswith(('.json', '.geojson'))`. -/
def isGeojsonName (filename : String) : Bool :=
  filename.toLower.endsWith ".json" || filename.toLower.endsWith ".geojson"

/-- The row collection loop of `main` (src/hole_report.py lines 69-79) as a
function of the folder contents: the directory listing in order, with each
file name paired with its parsed document.  Rows carry the file name, as in
the emitted CSV. -/
def mainRows : List (String × Document) → List (String × ResultRow)
  | [] => []
  | (filename, doc) :: rest =>
    if isGeojsonName filename then
      (process_geojson doc).map (fun r => (filename, r)) ++ mainRows rest
    else
      mainRows rest

/-- The constituent polygons (ring lists) a feature contributes: one for a
`Polygon`, one per element for a `MultiPolygon`, none otherwise. -/
def featurePolys (f : Feature) : List (List GeoRing) :=
  match f.geometry with
  | some (Geometry.polygon coords) => [coords]
  | some (Geometry.multiPolygon coords) => coords
  | _ => []

/-- Number of rows a feature produces. -/
def featureRowCount (f : Feature) : ℕ :=
  (featurePolys f).length

/-- The three metric fields of a row. -/
def rowMetrics (r : ResultRow) : ℚ × ℚ × ℚ :=
  (r.polygon_area, r.hole_area, r.hole_percent)

/-- True of a feature the source skips: no `'geometry'` key, or a geometry
whose `'type'` key is missing or holds an unrecognized tag. -/
def isSkipped (f : Feature) : Bool :=
  match f.geometry with
  | none => true
  | some (Geometry.unsupported _) => true
  | _ => false

/-- The unit-area square ring used as a concrete test polygon. -/
def sq4 : GeoRing := [(0, 0), (4, 0), (4, 4), (0, 4)]

/-- A square ring of side 1. -/
def unitSquare : GeoRing := [(0, 0), (1, 0), (1, 1), (0, 1)]

/-- A feature carrying one `Polygon` geometry (the side-4 square, no holes). -/
def squareFeature : Feature := ⟨some (Geometry.polygon [sq4])⟩

/-- A feature whose geometry has an unrecognized `'type'` of `"Point"`. -/
def pointFeature : Feature := ⟨some (Geometry.unsupported (some "Point"))⟩

/-- A feature without a `'geometry'` key. -/
def noGeometryFeature : Feature := ⟨none⟩

/-- A document with one `Polygon` feature followed by one `MultiPolygon`
feature made of two constituent polygons. -/
def exampleDoc : Document :=
  Document.featureCollection
    [⟨some (Geometry.polygon [sq4])⟩,
     ⟨some (Geometry.multiPolygon [[unitSquare], [sq4]])⟩]

/-- A concrete one-file folder listing. -/
def sampleListing : List (String × Document) :=
  [("a.geojson", Document.featureCollection [squareFeature])]

/-- Nearest integer to `m`, ties to even — the rounding of IEEE-754
round-to-nearest-even expressed on the scaled significand. -/
def roundTiesEven (m : ℚ) : ℤ :=
  if m - ⌊m⌋ < 1/2 then ⌊m⌋
  else if 1/2 < m - ⌊m⌋ then ⌊m⌋ + 1
  else if ⌊m⌋ % 2 = 0 then ⌊m⌋ else ⌊m⌋ + 1

/-- Rounding of an exact rational to IEEE-754 binary64 (the representation
of a Python float): round to nearest, ties to even, 53-bit significand,
with unbounded exponent range (no overflow or subnormals, which none of
the magnitudes used here approach).  The scale `2 ^ (⌊log₂ |x|⌋ - 52)` is
one unit in the last place of `x`. -/
def fl (x : ℚ) : ℚ :=
  if x = 0 then 0
  else (roundTiesEven (x / 2 ^ (Int.log 2 |x| - 52)) : ℚ) * 2 ^ (Int.log 2 |x| - 52)

/-- IEEE binary64 addition: the exact sum, correctly rounded. -/
def fadd (a b : ℚ) : ℚ := fl (a + b)

/-- IEEE binary64 subtraction: the exact difference, correctly rounded. -/
def fsub (a b : ℚ) : ℚ := fl (a - b)

/-- IEEE binary64 multiplication: the exact product, correctly rounded. -/
def fmul (a b : ℚ) : ℚ := fl (a * b)

/-- IEEE binary64 division: the exact quotient, correctly rounded. -/
def fdiv (a b : ℚ) : ℚ := fl (a / b)

/-- Embedding of `ring_area` (src/hole_report.py lines 7-16) under IEEE
binary64 float semantics instead of exact rationals: the loop accumulates
`area += x1 * y2 - x2 * y1` left to right with every operation rounded, as
the Python runtime does, and returns `abs(area) / 2.0` (`abs` is exact in
IEEE). -/
def ring_area_fp (coords : GeoRing) : ℚ :=
  if coords = [] then 0
  else
    fdiv
      |(List.range coords.length).foldl
          (fun area i =>
            fadd area
              (fsub (fmul (vertAt coords i).1 (vertAt coords ((i + 1) % coords.length)).2)
                    (fmul (vertAt coords ((i + 1) % coords.length)).1 (vertAt coords i).2)))
          0|
      2

/-- A ring whose shoelace cross terms are `2^53, 1, 1, 0`
(`9007199254740992 = 2^53`): the forward accumulation hits the
rounding boundary of binary64 twice, the reversed accumulation only at a
representable value, so the two float results differ by one ulp. -/
def ulpRing : GeoRing := [(9007199254740992, 0), (0, 1), (-1, 1), (-1, 0)]

lemma ring_area_nonneg (coords : GeoRing) : 0 ≤ ring_area coords := by
  unfold ring_area
  split
  · exact le_refl 0
  · exact div_nonneg (abs_nonneg _) (by norm_num)

lemma hole_area_nonneg (holes : List GeoRing) : 0 ≤ (holes.map ring_area).sum := by
  apply List.sum_nonneg
  intro x hx
  obtain ⟨r, -, rfl⟩ := List.mem_map.mp hx
  exact ring_area_nonneg r

lemma ring_area_sq4 : ring_area sq4 = 16 := by
  rw [ring_area, if_neg (by simp [sq4] : ¬ sq4 = [])]
  norm_num [shoelaceSum, crossAt, vertAt, sq4, Finset.sum_range_succ]

lemma polygon_metrics_sq4 : polygon_metrics [sq4] = (16, 0, 0) := by
  norm_num [polygon_metrics, ring_area_sq4]

/-- C1: `polygon_metrics` returns `(0, 0, 0)` on the empty ring list, and
otherwise a triple whose first component is the outer area minus the hole
area and whose second component is the sum of the hole ring areas (zero
when there are no holes); a non-positive polygon area is returned as-is.
The function is total, so no input raises an error. -/
theorem polygon_metrics_components :
    polygon_metrics [] = (0, 0, 0)
    ∧ ∀ (outer : GeoRing) (holes : List GeoRing),
        (polygon_metrics (outer :: holes)).1
            = ring_area outer - (holes.map ring_area).sum
        ∧ (polygon_metrics (outer :: holes)).2.1 = (holes.map ring_area).sum := by
  refine ⟨rfl, fun outer holes => ⟨?_, ?_⟩⟩ <;> simp [polygon_metrics]

/-- C2: the hole percentage is `0` whenever the polygon area is `≤ 0`, and
equals `hole_area / polygon_area * 100` otherwise; it is never negative.
In the model there are no infinities (`ℚ`); in the source the divisor of
the only division is strictly positive, so no division by zero occurs. -/
theorem hole_percent_policy :
    ∀ rings : List GeoRing,
      ((polygon_metrics rings).1 ≤ 0 → (polygon_metrics rings).2.2 = 0)
      ∧ (0 < (polygon_metrics rings).1 →
          (polygon_metrics rings).2.2
            = (polygon_metrics rings).2.1 / (polygon_metrics rings).1 * 100)
      ∧ 0 ≤ (polygon_metrics rings).2.2 := by
  intro rings
  match rings with
  | [] =>
    refine ⟨fun _ => rfl, fun h => ?_, le_refl 0⟩
    simp [polygon_metrics] at h
  | outer :: holes =>
    simp only [polygon_metrics]
    by_cases hpa : ring_area outer - (holes.map ring_area).sum ≤ 0
    · refine ⟨fun _ => by simp [hpa], fun hpos => absurd hpos (not_lt.mpr hpa), by simp [hpa]⟩
    · push_neg at hpa
      refine ⟨fun hle => absurd hle (not_le.mpr hpa), fun _ => by simp [not_le.mpr hpa], ?_⟩
      simp only [not_le.mpr hpa, if_false]
      have h1 : 0 ≤ (holes.map ring_area).sum := hole_area_nonneg holes
      positivity

/-- Witness for C2 at a concrete input: a single square ring of area 16. -/
theorem hole_percent_policy_witness :
    0 < (polygon_metrics [sq4]).1
    ∧ (polygon_metrics [sq4]).2.2
        = (polygon_metrics [sq4]).2.1 / (polygon_metrics [sq4]).1 * 100 := by
  have hpos : 0 < (polygon_metrics [sq4]).1 := by
    rw [polygon_metrics_sq4]
    norm_num
  exact ⟨hpos, (hole_percent_policy [sq4]).2.1 hpos⟩

/-- C6: a single-ring list with no holes yields exactly
`(ring_area outer, 0, 0)`, also when the outer area is `0` (then the
polygon area is `≤ 0` and the percentage is forced to `0`; otherwise the
percentage is `0 / area * 100 = 0`). -/
theorem polygon_metrics_single_ring :
    ∀ outer : GeoRing, polygon_metrics [outer] = (ring_area outer, 0, 0) := by
  intro outer
  simp [polygon_metrics]

/-- C3: `ring_area` returns `0` on the empty ring (the branch before the
loop), otherwise the absolute shoelace sum halved; on the axis-aligned
square of side 4 it returns `16` in both winding orders; and the result is
always non-negative. -/
theorem ring_area_shoelace :
    ring_area [] = 0
    ∧ (∀ coords : GeoRing, coords ≠ [] → ring_area coords = |shoelaceSum coords| / 2)
    ∧ ring_area sq4 = 16
    ∧ ring_area sq4.reverse = 16
    ∧ ∀ coords : GeoRing, 0 ≤ ring_area coords := by
  refine ⟨rfl, fun coords h => by simp [ring_area, h], ring_area_sq4, ?_, ring_area_nonneg⟩
  · have h : sq4.reverse = [(0, 4), (4, 4), (4, 0), (0, 0)] := by rfl
    rw [h, ring_area,
      if_neg (by simp : ¬ ([((0 : ℚ), (4 : ℚ)), (4, 4), (4, 0), (0, 0)] : GeoRing) = [])]
    norm_num [shoelaceSum, crossAt, vertAt, Finset.sum_range_succ]

/-- Witness for C3: the non-empty hypothesis discharged on the square. -/
theorem ring_area_shoelace_witness :
    sq4 ≠ ([] : GeoRing) ∧ ring_area sq4 = |shoelaceSum sq4| / 2 :=
  ⟨by simp [sq4], ring_area_shoelace.2.1 sq4 (by simp [sq4])⟩

lemma emitMulti_snd (idx : ℕ) (ps : List (List GeoRing)) :
    (emitMulti idx ps).2 = idx + ps.length := by
  induction ps generalizing idx with
  | nil => rfl
  | cons p ps ih => simp [emitMulti, ih]; omega

lemma emitMulti_map_index (idx : ℕ) (ps : List (List GeoRing)) :
    (emitMulti idx ps).1.map ResultRow.feature_index = List.range' (idx + 1) ps.length := by
  induction ps generalizing idx with
  | nil => rfl
  | cons p ps ih => simp [emitMulti, mkRow, ih, List.range'_succ]

lemma rowMetrics_mkRow (i : ℕ) (rings : List GeoRing) :
    rowMetrics (mkRow i rings) = polygon_metrics rings := rfl

lemma emitMulti_map_metrics (idx : ℕ) (ps : List (List GeoRing)) :
    (emitMulti idx ps).1.map rowMetrics = ps.map polygon_metrics := by
  induction ps generalizing idx with
  | nil => rfl
  | cons p ps ih => simp [emitMulti, rowMetrics_mkRow, ih]

/-- C4: every `Polygon` geometry yields one row and every `MultiPolygon`
yields one row per constituent polygon, in document order, with the
feature index running `idx + 1, idx + 2, ...` — one increment per emitted
row — while every other geometry yields no row and leaves the counter
unchanged (its `featureRowCount` is zero).  In particular the document
with one `Polygon` and one two-polygon `MultiPolygon` yields the feature
indices `[1, 2, 3]`. -/
theorem traversal_rows_and_indices :
    (∀ (idx : ℕ) (fs : List Feature),
        (processFeatures idx fs).map ResultRow.feature_index
          = List.range' (idx + 1) ((fs.map featureRowCount).sum)
        ∧ (processFeatures idx fs).map rowMetrics
          = (fs.flatMap featurePolys).map polygon_metrics)
    ∧ (process_geojson exampleDoc).map ResultRow.feature_index = [1, 2, 3] := by
  constructor
  · intro idx fs
    induction fs generalizing idx with
    | nil => exact ⟨rfl, rfl⟩
    | cons f rest ih =>
      rcases hg : f.geometry with - | g
      · constructor <;>
          simp [processFeatures, hg, featureRowCount, featurePolys, ih idx]
      · cases g with
        | polygon cs =>
          constructor
          · have h1 : (1 : ℕ) + ((rest.map featureRowCount).sum)
                = (rest.map featureRowCount).sum + 1 := Nat.add_comm _ _
            simp [processFeatures, hg, featureRowCount, featurePolys, mkRow,
              (ih (idx + 1)).1, h1, List.range'_succ]
          · simp [processFeatures, hg, featurePolys, rowMetrics_mkRow, (ih (idx + 1)).2]
        | multiPolygon ps =>
          constructor
          · have h2 : idx + ps.length + 1 = idx + 1 + ps.length := by omega
            simp only [processFeatures, hg, List.map_append, List.map_cons,
              featureRowCount, featurePolys, List.sum_cons, emitMulti_snd,
              emitMulti_map_index, (ih (idx + ps.length)).1, h2]
            rw [Nat.add_comm ps.length _]
            exact List.range'_append_1 (idx + 1) ps.length _
          · simp [processFeatures, hg, featurePolys, emitMulti_snd,
              emitMulti_map_metrics, (ih (idx + ps.length)).2]
        | unsupported t =>
          constructor <;>
            simp [processFeatures, hg, featureRowCount, featurePolys, ih idx]
  · rfl

/-- C10: a feature without a `'geometry'` key, or whose geometry has a
missing or unrecognized `'type'`, is invisible to `process_geojson`: at
any position of the feature list it yields no row, does not advance the
feature counter, raises no error (the embedded traversal is total), and
processing of the remaining features continues unchanged. -/
theorem skipped_feature_invisible :
    ∀ f : Feature, isSkipped f = true →
      ∀ (idx : ℕ) (as bs : List Feature),
        processFeatures idx (as ++ f :: bs) = processFeatures idx (as ++ bs) := by
  intro f hf idx as bs
  induction as generalizing idx with
  | nil =>
    simp only [List.nil_append]
    rcases hg : f.geometry with - | g
    · simp [processFeatures, hg]
    · cases g with
      | polygon cs => simp [isSkipped, hg] at hf
      | multiPolygon ps => simp [isSkipped, hg] at hf
      | unsupported t => simp [processFeatures, hg]
  | cons a as ih =>
    rcases hg : a.geometry with - | g
    · simpa [processFeatures, hg] using ih idx
    · cases g with
      | polygon cs => simpa [processFeatures, hg] using ih (idx + 1)
      | multiPolygon ps => simpa [processFeatures, hg] using ih (emitMulti idx ps).2
      | unsupported t => simpa [processFeatures, hg] using ih idx

/-- Witness for C10: a `"Point"` feature in front of a `Polygon` feature
changes nothing. -/
theorem skipped_feature_invisible_witness :
    isSkipped pointFeature = true
    ∧ processFeatures 0 [pointFeature, squareFeature] = processFeatures 0 [squareFeature] :=
  ⟨rfl, skipped_feature_invisible pointFeature rfl 0 [] [squareFeature]⟩

/-- C7 as stated is false on the code: a feature without a `'geometry'`
key does not make the file fail.  The source reads
`feat.get('geometry', {})` and `geom.get('type')`, obtains `None`, and
silently skips the feature; the file still produces output from its
remaining content.  Here a document with such a feature followed by a
valid square `Polygon` yields one ordinary row and no error. -/
theorem missing_geometry_counterexample :
    process_geojson (Document.featureCollection [noGeometryFeature, squareFeature])
      = [{ feature_index := 1, polygon_area := 16, hole_area := 0, hole_percent := 0 }] := by
  simp [process_geojson, docFeatures, processFeatures, noGeometryFeature, squareFeature,
    mkRow, polygon_metrics_sq4]

/-- C7 amended: invalid syntax is fatal at the file level (`json.load`
raises before the traversal starts), but missing expected keys are not:
a feature without a `'geometry'` key, or a geometry without a `'type'`
key, is silently skipped — no row, no counter increment, no error — and
processing of the file continues. -/
theorem missing_keys_not_fatal :
    ∀ (idx : ℕ) (rest : List Feature),
      processFeatures idx ({ geometry := none } :: rest) = processFeatures idx rest
      ∧ processFeatures idx ({ geometry := some (Geometry.unsupported none) } :: rest)
          = processFeatures idx rest := by
  intro idx rest
  constructor <;> simp [processFeatures]

/-- C8: the report content is a pure function of the folder contents (the
directory listing in order with each file's parsed document), so two runs
over the same contents produce the same sequence of rows; moreover the
rows are exactly the per-file rows of the name-filtered listing,
concatenated in listing order with features in document order — no
unordered iteration is involved. -/
theorem report_deterministic :
    (∀ l1 l2 : List (String × Document), l1 = l2 → mainRows l1 = mainRows l2)
    ∧ ∀ l : List (String × Document),
        mainRows l
          = l.flatMap fun p =>
              if isGeojsonName p.1 then
                (process_geojson p.2).map fun r => (p.1, r)
              else [] := by
  constructor
  · intro l1 l2 h
    rw [h]
  · intro l
    induction l with
    | nil => rfl
    | cons p rest ih =>
      obtain ⟨filename, doc⟩ := p
      by_cases hx : isGeojsonName filename <;> simp [mainRows, hx, ih]

/-- Witness for C8 at a concrete one-file listing. -/
theorem report_deterministic_witness :
    sampleListing = sampleListing ∧ mainRows sampleListing = mainRows sampleListing :=
  ⟨rfl, report_deterministic.1 sampleListing sampleListing rfl⟩

lemma roundTiesEven_intCast (k : ℤ) : roundTiesEven (k : ℚ) = k := by
  rw [roundTiesEven, Int.floor_intCast, if_pos (by norm_num : ((k : ℚ) - k) < 1/2)]

lemma roundTiesEven_half (f : ℤ) (hf : f % 2 = 0) : roundTiesEven ((f : ℚ) + 1/2) = f := by
  have hfl : ⌊(f : ℚ) + 1/2⌋ = f := by
    rw [add_comm, Int.floor_add_int]
    norm_num [Int.floor_eq_zero_iff, Set.mem_Ico]
  rw [roundTiesEven, hfl]
  have hr : (f : ℚ) + 1/2 - f = 1/2 := by ring
  rw [hr, if_neg (by norm_num), if_neg (by norm_num), if_pos hf]

lemma int_log_q (q : ℚ) (n m : ℕ) (hq : q = (n : ℚ)) (h1 : 2 ^ m ≤ n) (h2 : n < 2 ^ (m + 1)) :
    Int.log 2 q = m := by
  rw [hq, Int.log_natCast, Nat.log_eq_of_pow_le_of_lt_pow h1 h2]

lemma fl_exact (x : ℚ) (e k : ℤ) (hx : x ≠ 0)
    (hlog : Int.log 2 |x| = e + 52) (hk : x = (k : ℚ) * 2 ^ e) : fl x = x := by
  have h2 : ((2 : ℚ) ^ e) ≠ 0 := by positivity
  rw [fl, if_neg hx, hlog, add_sub_cancel_right, hk,
    mul_div_cancel_right₀ _ h2, roundTiesEven_intCast]

lemma fl_tie_even (x : ℚ) (e f : ℤ) (hx : x ≠ 0)
    (hlog : Int.log 2 |x| = e + 52)
    (hm : x / 2 ^ e = (f : ℚ) + 1/2) (hf : f % 2 = 0) :
    fl x = (f : ℚ) * 2 ^ e := by
  rw [fl, if_neg hx, hlog, add_sub_cancel_right, hm, roundTiesEven_half f hf]

lemma fl_zero : fl 0 = 0 := by
  rw [fl, if_pos rfl]

lemma fl_one : fl 1 = 1 := by
  apply fl_exact 1 (-52) 4503599627370496 (by norm_num)
  · rw [int_log_q |(1 : ℚ)| 1 0 (by norm_num) (by norm_num) (by norm_num)]
    norm_num
  · norm_num [zpow_neg]

lemma fl_neg_one : fl (-1) = -1 := by
  apply fl_exact (-1) (-52) (-4503599627370496) (by norm_num)
  · rw [int_log_q |(-1 : ℚ)| 1 0 (by norm_num) (by norm_num) (by norm_num)]
    norm_num
  · norm_num [zpow_neg]

lemma fl_neg_two : fl (-2) = -2 := by
  apply fl_exact (-2) (-51) (-4503599627370496) (by norm_num)
  · rw [int_log_q |(-2 : ℚ)| 2 1 (by norm_num) (by norm_num) (by norm_num)]
    norm_num
  · norm_num [zpow_neg]

lemma fl_two_pow53 : fl 9007199254740992 = 9007199254740992 := by
  apply fl_exact _ 1 4503599627370496 (by norm_num)
  · rw [int_log_q |(9007199254740992 : ℚ)| 9007199254740992 53 (by norm_num) (by norm_num)
      (by norm_num)]
    norm_num
  · norm_num [zpow_one]

lemma fl_neg_two_pow53 : fl (-9007199254740992) = -9007199254740992 := by
  apply fl_exact _ 1 (-4503599627370496) (by norm_num)
  · rw [int_log_q |(-9007199254740992 : ℚ)| 9007199254740992 53 (by norm_num) (by norm_num)
      (by norm_num)]
    norm_num
  · norm_num [zpow_one]

lemma fl_tie_above_two_pow53 : fl 9007199254740993 = 9007199254740992 := by
  have h := fl_tie_even 9007199254740993 1 4503599627370496 (by norm_num)
    (by rw [int_log_q |(9007199254740993 : ℚ)| 9007199254740993 53 (by norm_num) (by norm_num)
          (by norm_num)]
        norm_num)
    (by norm_num [zpow_one])
    (by omega)
  rw [h]
  norm_num [zpow_one]

lemma fl_neg_two_pow53_add_two : fl (-9007199254740994) = -9007199254740994 := by
  apply fl_exact _ 1 (-4503599627370497) (by norm_num)
  · rw [int_log_q |(-9007199254740994 : ℚ)| 9007199254740994 53 (by norm_num) (by norm_num)
      (by norm_num)]
    norm_num
  · norm_num [zpow_one]

lemma fl_two_pow52 : fl 4503599627370496 = 4503599627370496 := by
  apply fl_exact _ 0 4503599627370496 (by norm_num)
  · rw [int_log_q |(4503599627370496 : ℚ)| 4503599627370496 52 (by norm_num) (by norm_num)
      (by norm_num)]
    norm_num
  · norm_num

lemma fl_two_pow52_add_one : fl 4503599627370497 = 4503599627370497 := by
  apply fl_exact _ 0 4503599627370497 (by norm_num)
  · rw [int_log_q |(4503599627370497 : ℚ)| 4503599627370497 52 (by norm_num) (by norm_num)
      (by norm_num)]
    norm_num
  · norm_num

lemma ring_area_fp_four (a1 a2 b1 b2 c1 c2 d1 d2 : ℚ) :
    ring_area_fp [(a1, a2), (b1, b2), (c1, c2), (d1, d2)]
      = fdiv
          |fadd (fadd (fadd (fadd 0
              (fsub (fmul a1 b2) (fmul b1 a2)))
              (fsub (fmul b1 c2) (fmul c1 b2)))
              (fsub (fmul c1 d2) (fmul d1 c2)))
              (fsub (fmul d1 a2) (fmul a1 d2))|
          2 := by
  simp only [ring_area_fp]
  rw [if_neg (List.cons_ne_nil _ _)]
  norm_num [List.range_succ, vertAt]

lemma fmul_big_one : fmul (9007199254740992 : ℚ) 1 = 9007199254740992 := by
  rw [fmul, mul_one, fl_two_pow53]

lemma fmul_zero_zero : fmul (0 : ℚ) 0 = 0 := by
  rw [fmul, mul_zero, fl_zero]

lemma fmul_zero_one : fmul (0 : ℚ) 1 = 0 := by
  rw [fmul, zero_mul, fl_zero]

lemma fmul_neg_one_one : fmul (-1 : ℚ) 1 = -1 := by
  rw [fmul, mul_one, fl_neg_one]

lemma fmul_neg_one_zero : fmul (-1 : ℚ) 0 = 0 := by
  rw [fmul, mul_zero, fl_zero]

lemma fmul_big_zero : fmul (9007199254740992 : ℚ) 0 = 0 := by
  rw [fmul, mul_zero, fl_zero]

lemma fsub_big_zero : fsub (9007199254740992 : ℚ) 0 = 9007199254740992 := by
  rw [fsub, sub_zero, fl_two_pow53]

lemma fsub_zero_neg_one : fsub (0 : ℚ) (-1) = 1 := by
  rw [fsub, sub_neg_eq_add, zero_add, fl_one]

lemma fsub_zero_zero : fsub (0 : ℚ) 0 = 0 := by
  rw [fsub, sub_zero, fl_zero]

lemma fsub_neg_one_zero : fsub (-1 : ℚ) 0 = -1 := by
  rw [fsub, sub_zero, fl_neg_one]

lemma fsub_zero_big : fsub (0 : ℚ) 9007199254740992 = -9007199254740992 := by
  rw [fsub, zero_sub, fl_neg_two_pow53]

lemma fadd_zero_big : fadd (0 : ℚ) 9007199254740992 = 9007199254740992 := by
  rw [fadd, zero_add, fl_two_pow53]

lemma fadd_big_one : fadd (9007199254740992 : ℚ) 1 = 9007199254740992 := by
  rw [fadd, show (9007199254740992 : ℚ) + 1 = 9007199254740993 by norm_num,
    fl_tie_above_two_pow53]

lemma fadd_big_zero : fadd (9007199254740992 : ℚ) 0 = 9007199254740992 := by
  rw [fadd, add_zero, fl_two_pow53]

lemma fadd_zero_neg_one : fadd (0 : ℚ) (-1) = -1 := by
  rw [fadd, zero_add, fl_neg_one]

lemma fadd_neg_one_neg_one : fadd (-1 : ℚ) (-1) = -2 := by
  rw [fadd, show (-1 : ℚ) + -1 = -2 by norm_num, fl_neg_two]

lemma fadd_neg_two_neg_big : fadd (-2 : ℚ) (-9007199254740992) = -9007199254740994 := by
  rw [fadd, show (-2 : ℚ) + -9007199254740992 = -9007199254740994 by norm_num,
    fl_neg_two_pow53_add_two]

lemma fadd_neg_big_zero : fadd (-9007199254740994 : ℚ) 0 = -9007199254740994 := by
  rw [fadd, add_zero, fl_neg_two_pow53_add_two]

lemma fdiv_abs_big_two : fdiv |(9007199254740992 : ℚ)| 2 = 4503599627370496 := by
  rw [fdiv, abs_of_pos (by norm_num : (0 : ℚ) < 9007199254740992),
    show (9007199254740992 : ℚ) / 2 = 4503599627370496 by norm_num, fl_two_pow52]

lemma fdiv_abs_neg_big_two : fdiv |(-9007199254740994 : ℚ)| 2 = 4503599627370497 := by
  rw [fdiv, abs_neg, abs_of_pos (by norm_num : (0 : ℚ) < 9007199254740994),
    show (9007199254740994 : ℚ) / 2 = 4503599627370497 by norm_num, fl_two_pow52_add_one]

lemma crossAt_comm (c : GeoRing) (i j : ℕ) : crossAt c i j = - crossAt c j i := by
  rw [crossAt, crossAt]
  ring

lemma shoelaceSum_split (c : GeoRing) (h : c ≠ []) :
    shoelaceSum c
      = (∑ i ∈ Finset.range (c.length - 1), crossAt c i (i + 1))
        + crossAt c (c.length - 1) 0 := by
  obtain ⟨m, hm⟩ : ∃ m, c.length = m + 1 :=
    ⟨c.length - 1, (Nat.succ_pred_eq_of_pos (List.length_pos.mpr h)).symm⟩
  rw [shoelaceSum, hm, Finset.sum_range_succ, Nat.add_sub_cancel, Nat.mod_self]
  congr 1
  apply Finset.sum_congr rfl
  intro i hi
  rw [Nat.mod_eq_of_lt (Nat.succ_lt_succ (Finset.mem_range.mp hi))]

lemma vertAt_reverse (c : GeoRing) (i : ℕ) (h : i < c.length) :
    vertAt c.reverse i = vertAt c (c.length - 1 - i) := by
  simp [vertAt, List.getD_eq_getElem?_getD, List.getElem?_reverse h]

lemma crossAt_reverse (c : GeoRing) (i j : ℕ) (hi : i < c.length) (hj : j < c.length) :
    crossAt c.reverse i j = crossAt c (c.length - 1 - i) (c.length - 1 - j) := by
  rw [crossAt, vertAt_reverse c i hi, vertAt_reverse c j hj, crossAt]

lemma shoelaceSum_reverse (c : GeoRing) : shoelaceSum c.reverse = - shoelaceSum c := by
  rcases eq_or_ne c [] with rfl | h
  · simp [shoelaceSum]
  · have hrev : c.reverse ≠ [] := by simpa using h
    have hn0 : 0 < c.length := List.length_pos.mpr h
    rw [shoelaceSum_split c.reverse hrev, shoelaceSum_split c h, List.length_reverse]
    have hlast : crossAt c.reverse (c.length - 1) 0 = - crossAt c (c.length - 1) 0 := by
      rw [crossAt_reverse c (c.length - 1) 0 (by omega) (by omega)]
      have e1 : c.length - 1 - (c.length - 1) = 0 := by omega
      have e2 : c.length - 1 - 0 = c.length - 1 := by omega
      rw [e1, e2, crossAt_comm]
    have hsum : ∑ i ∈ Finset.range (c.length - 1), crossAt c.reverse i (i + 1)
        = - ∑ i ∈ Finset.range (c.length - 1), crossAt c i (i + 1) := by
      have h1 : ∀ i ∈ Finset.range (c.length - 1),
          crossAt c.reverse i (i + 1)
            = (fun j => crossAt c (j + 1) j) (c.length - 1 - 1 - i) := by
        intro i hi
        have hi' : i < c.length - 1 := Finset.mem_range.mp hi
        rw [crossAt_reverse c i (i + 1) (by omega) (by omega)]
        have e1 : c.length - 1 - i = (c.length - 1 - 1 - i) + 1 := by omega
        have e2 : c.length - 1 - (i + 1) = c.length - 1 - 1 - i := by omega
        rw [e1, e2]
      rw [Finset.sum_congr rfl h1,
        Finset.sum_range_reflect (fun j => crossAt c (j + 1) j) (c.length - 1),
        ← Finset.sum_neg_distrib]
      apply Finset.sum_congr rfl
      intro j hj
      rw [crossAt_comm]
    rw [hsum, hlast]
    ring

/-- C5 amended: reversing the vertex order of a ring exactly negates the
shoelace sum, so after the absolute value `ring_area` returns the same
value for a ring and its reversal in exact (real-number) arithmetic.  The
claim's stronger assertion — exact equality of the returned
floating-point values — does not hold for the program: reversal permutes
the left-to-right float accumulation, which can change the rounded sum by
one ulp (see the counterexample below), so winding-order independence is
exact only up to that rounding. -/
theorem ring_area_reverse :
    ∀ coords : GeoRing, ring_area coords.reverse = ring_area coords := by
  intro coords
  rcases eq_or_ne coords [] with rfl | h
  · rfl
  · have hrev : coords.reverse ≠ [] := by simpa using h
    rw [ring_area, ring_area, if_neg hrev, if_neg h, shoelaceSum_reverse, abs_neg]

/-- C5 counterexample: under the program's actual IEEE binary64
arithmetic the claimed exact equality fails.  For the ring
`[(2^53, 0), (0, 1), (-1, 1), (-1, 0)]` the shoelace terms are exactly
`2^53, 1, 1, 0`; accumulated forward, both `2^53 + 1` sums round down
(tie to even) and the program returns `2^52 = 4503599627370496.0`, while
the reversed traversal adds `-1 + -1 = -2` first, lands on the exactly
representable `-(2^53 + 2)`, and returns `2^52 + 1 = 4503599627370497.0`
— two different floats for the ring and its reversal. -/
theorem ring_area_fp_reverse_counterexample :
    ring_area_fp ulpRing.reverse ≠ ring_area_fp ulpRing
    ∧ ring_area_fp ulpRing = 4503599627370496
    ∧ ring_area_fp ulpRing.reverse = 4503599627370497 := by
  have hfwd : ring_area_fp ulpRing = 4503599627370496 := by
    rw [show ulpRing = [((9007199254740992 : ℚ), (0 : ℚ)), (0, 1), (-1, 1), (-1, 0)] from rfl,
      ring_area_fp_four]
    simp only [fmul_big_one, fmul_zero_zero, fmul_zero_one, fmul_neg_one_one,
      fmul_neg_one_zero, fmul_big_zero, fsub_big_zero, fsub_zero_neg_one, fsub_zero_zero,
      fadd_zero_big, fadd_big_one, fadd_big_zero, fdiv_abs_big_two]
  have hrev : ring_area_fp ulpRing.reverse = 4503599627370497 := by
    rw [show ulpRing.reverse
          = [((-1 : ℚ), (0 : ℚ)), (-1, 1), (0, 1), (9007199254740992, 0)] from rfl,
      ring_area_fp_four]
    simp only [fmul_neg_one_one, fmul_neg_one_zero, fmul_zero_one, fmul_zero_zero,
      fmul_big_one, fmul_big_zero, fsub_neg_one_zero, fsub_zero_big, fsub_zero_zero,
      fadd_zero_neg_one, fadd_neg_one_neg_one, fadd_neg_two_neg_big, fadd_neg_big_zero,
      fdiv_abs_neg_big_two]
  exact ⟨by rw [hfwd, hrev]; norm_num, hfwd, hrev⟩

end HoleReport
